import Mathlib

/-!
Shallow embedding of the availability / incident aggregation engine of
`src/app.py` (monthly uptime report generator).

Conventions of the embedding:
* A minute timestamp is a natural number: the UTC minute index since an
  arbitrary epoch.  `k.date()` in the source becomes `k / 1440` (UTC days
  have 1440 minutes and timestamps are minute-truncated).
* Python floats are modelled as rationals (`ℚ`); `round(x, n)` is modelled
  by `pyRound` (round-half-to-even at `n` decimal digits, Python's
  documented rounding mode).
* The merged dict `mp : dict[minute] -> {"succ": [...], "dur": [...]}` is
  modelled as a list of `MinutePoint`; `sorted(mp.keys())` becomes an
  insertion sort by minute.  Dict keys are unique, so theorems about
  `compute_summary` assume the minutes are pairwise distinct (stated as a
  strictly sorted input, which the internal sort then leaves unchanged).
* Python dicts used as counters (`per_day_total`, `per_day_down`) are
  modelled as insertion-ordered association lists (`dictIncr`, `lookupD`),
  mirroring `d.get(k, 0)` / `d[k] = d.get(k, 0) + 1`.
-/

namespace Uptime

/-- One entry of the merged minute-point dict of `merge_minute_points`:
the success-percent samples and the duration samples observed in one
minute, across all canaries. -/
structure MinutePoint where
  minute : ℕ
  succ : List ℚ
  dur : List ℚ
deriving Repr, DecidableEq

/-- Round-half-to-even to an integer, the tie-breaking rule of Python's
built-in `round`. -/
def rndHalfEven (x : ℚ) : ℤ :=
  let f := ⌊x⌋
  if x - f < 1/2 then f
  else if 1/2 < x - f then f + 1
  else if f % 2 = 0 then f else f + 1

/-- Model of Python's `round(x, n)` on our rational model of floats. -/
def pyRound (x : ℚ) (n : ℕ) : ℚ :=
  (rndHalfEven (x * 10 ^ n) : ℚ) / 10 ^ n

/-- Model of Python's `min` on a list (the source only calls it on
non-empty lists). -/
def listMin : List ℚ → ℚ
  | [] => 0
  | x :: xs => xs.foldl min x

/-- Model of Python's `max` on a list (the source only calls it on
non-empty lists). -/
def listMax : List ℚ → ℚ
  | [] => 0
  | x :: xs => xs.foldl max x

/-- Embedding of `percentile(values, p)` (src/app.py lines 149-165).
`int(k)` truncates towards zero; `k ≥ 0` holds in that branch, so it is
`⌊k⌋.toNat`. -/
def percentile (values : List ℚ) (p : ℚ) : Option ℚ :=
  if values = [] then none
  else if p ≤ 0 then some (listMin values)
  else if 100 ≤ p then some (listMax values)
  else
    let s := values.insertionSort (· ≤ ·)
    let k : ℚ := (s.length - 1 : ℕ) * (p / 100)
    let f : ℕ := ⌊k⌋.toNat
    let c : ℕ := ⌈k⌉.toNat
    if f = c then some (s.getD f 0)
    else some (s.getD f 0 * ((c : ℚ) - k) + s.getD c 0 * (k - (f : ℚ)))

/-- Python dict-as-counter lookup: `d.get(k, 0)` on an insertion-ordered
association list. -/
def lookupD (a : List (ℕ × ℕ)) (k : ℕ) (dflt : ℕ) : ℕ :=
  ((a.find? (fun e => e.1 == k)).map (fun e => e.2)).getD dflt

/-- Python counter update `d[k] = d.get(k, 0) + 1`: increment the entry of
`k` in place, or append a fresh entry at the end (dict insertion order). -/
def dictIncr (k : ℕ) : List (ℕ × ℕ) → List (ℕ × ℕ)
  | [] => [(k, 1)]
  | e :: rest => if e.1 = k then (e.1, e.2 + 1) :: rest else e :: dictIncr k rest

/-- Keys of a counter dict, in insertion order. -/
def dictKeys (a : List (ℕ × ℕ)) : List ℕ :=
  a.map (fun e => e.1)

/-- Mean of a list of samples, `sum(l) / len(l)` (the source only divides
non-empty lists). -/
def listMean (l : List ℚ) : ℚ :=
  l.sum / (l.length : ℚ)

/-- Verdict of one classified minute, `all(v >= 100.0 for v in svals)`
(src/app.py line 314). -/
def allOk (svals : List ℚ) : Bool :=
  svals.all (fun v => decide ((100 : ℚ) ≤ v))

/-- The `failures` list built by the classification loop (src/app.py lines
308-315): one `0`/`1` per minute that has at least one success sample, in
key order; minutes without success samples are skipped (`continue`). -/
def minuteFailures : List MinutePoint → List ℕ
  | [] => []
  | pt :: rest =>
    if pt.succ = [] then minuteFailures rest
    else (if allOk pt.succ then 0 else 1) :: minuteFailures rest

/-- The `per_min_succ` list of the classification loop (src/app.py line
316): per-minute average success percent, classified minutes only. -/
def perMinuteSucc : List MinutePoint → List ℚ
  | [] => []
  | pt :: rest =>
    if pt.succ = [] then perMinuteSucc rest
    else listMean pt.succ :: perMinuteSucc rest

/-- The `per_min_dur_ms` list of the classification loop (src/app.py lines
317-318): per-minute average duration, for classified minutes that also
have duration samples. -/
def perMinuteDurMs : List MinutePoint → List ℚ
  | [] => []
  | pt :: rest =>
    if pt.succ = [] then perMinuteDurMs rest
    else if pt.dur = [] then perMinuteDurMs rest
    else listMean pt.dur :: perMinuteDurMs rest

/-- Minutes that receive a verdict (the loop iterations that do not
`continue`), in key order. -/
def classifiedMinutes : List MinutePoint → List ℕ
  | [] => []
  | pt :: rest =>
    if pt.succ = [] then classifiedMinutes rest
    else pt.minute :: classifiedMinutes rest

/-- Day index of a minute timestamp, `k.date()` for minute-truncated UTC
timestamps. -/
def dayOf (m : ℕ) : ℕ :=
  m / 1440

/-- The `per_day_total` counter dict (src/app.py lines 320-321): one
increment per classified minute, keyed by its day. -/
def perDayTotal (pts : List MinutePoint) : List (ℕ × ℕ) :=
  (classifiedMinutes pts).foldl (fun a m => dictIncr (dayOf m) a) []

/-- State of the incident-detection loop (src/app.py lines 323-353). -/
structure IncState where
  incidents : List (ℕ × ℕ × ℕ)
  down : ℕ
  perDayDown : List (ℕ × ℕ)
  run_len : ℕ
  run_start_idx : Option ℕ
deriving Repr, DecidableEq

/-- The `for j in range(start_i, end_i + 1)` day-marking loop (src/app.py
lines 341-343 and 351-353). -/
def markDays (keys : List ℕ) (start_i end_i : ℕ) (dd : List (ℕ × ℕ)) : List (ℕ × ℕ) :=
  (List.range' start_i (end_i + 1 - start_i)).foldl
    (fun a j => dictIncr (dayOf (keys.getD j 0)) a) dd

/-- Incident emission (src/app.py lines 336-343, also reused for the final
run at lines 347-353 with `i = len(failures)`): `start_i = run_start_idx +
FAIL_STREAK - 1`, `end_i = i - 1`, counted length `end_i - start_i + 1`
(written `end_i + 1 - start_i`, equal under the reachable `start_i ≤ end_i`).
`run_start_idx` is `Some` whenever this is reached with `FAIL_STREAK ≥ 1`;
`getD 0` stands for Python's would-be crash on `None`. -/
def emitIncident (FS : ℕ) (keys : List ℕ) (i : ℕ) (st : IncState) : IncState :=
  let start_i := st.run_start_idx.getD 0 + FS - 1
  let end_i := i - 1
  { st with
    incidents := st.incidents ++ [(keys.getD start_i 0, keys.getD end_i 0, end_i + 1 - start_i)]
    down := st.down + (end_i + 1 - start_i)
    perDayDown := markDays keys start_i end_i st.perDayDown }

/-- The `for i, f in enumerate(failures)` scan (src/app.py lines 329-345). -/
def incidentScan (FS : ℕ) (keys : List ℕ) : List (ℕ × ℕ) → IncState → IncState
  | [], st => st
  | (i, f) :: rest, st =>
    if f = 1 then
      incidentScan FS keys rest
        { st with
          run_start_idx := if st.run_len = 0 then some i else st.run_start_idx
          run_len := st.run_len + 1 }
    else
      let st1 := if FS ≤ st.run_len then emitIncident FS keys i st else st
      incidentScan FS keys rest { st1 with run_len := 0, run_start_idx := none }

/-- Whole incident detection: the enumerate scan followed by the trailing
`if run_len >= FAIL_STREAK` block (src/app.py lines 346-353, whose
`end_i = len(failures) - 1` is `emitIncident` at `i = len(failures)`). -/
def detectIncidents (FS : ℕ) (keys failures : List ℕ) : IncState :=
  let st := incidentScan FS keys failures.enum ⟨[], 0, [], 0, none⟩
  if FS ≤ st.run_len then emitIncident FS keys failures.length st else st

/-- The `down_minutes` value computed by the incident-detection loop. -/
def downMinutesOf (FS : ℕ) (keys failures : List ℕ) : ℕ :=
  (detectIncidents FS keys failures).down

/-- State of `downsample_series` (src/app.py lines 401-430): emitted rows,
current bucket start (`b_end` is always `b_start + bucket_min` in the
source, so only `b_start` is tracked) and the two accumulators. -/
structure DSState where
  rows : List (ℕ × ℚ × ℚ)
  b_start : ℕ
  s_acc : List ℚ
  r_acc : List ℚ
deriving Repr, DecidableEq

/-- The nested `flush()` (src/app.py lines 411-416): emit nothing for an
empty bucket, else append the bucket row of rounded averages. -/
def dsFlush (st : DSState) : List (ℕ × ℚ × ℚ) :=
  if st.s_acc = [] ∧ st.r_acc = [] then st.rows
  else
    st.rows ++ [(st.b_start,
      pyRound (if st.s_acc = [] then 0 else listMean st.s_acc) 3,
      pyRound (if st.r_acc = [] then 0 else listMean st.r_acc) 3)]

/-- The `while k >= b_end` loop body (src/app.py lines 419-424): flush,
advance one bucket, clear the accumulators.  The source's `while` always
terminates because `bucket_min ≥ 1`; here it runs on explicit fuel, and
fuel `k + 1` (what `downsampleStep` passes) is enough for any
`bucket_min ≥ 1` because `b_start` strictly increases while it is `≤ k`. -/
def dsAdvance (w k : ℕ) : ℕ → DSState → DSState
  | 0, st => st
  | fuel + 1, st =>
    if st.b_start + w ≤ k then
      dsAdvance w k fuel ⟨dsFlush st, st.b_start + w, [], []⟩
    else st

/-- One iteration of the `for i, k in enumerate(keys)` loop (src/app.py
lines 418-428). -/
def downsampleStep (w : ℕ) (succ_pct resp_s : List ℚ) (st : DSState) (ik : ℕ × ℕ) : DSState :=
  let st1 := dsAdvance w ik.2 (ik.2 + 1) st
  let st2 := { st1 with
    s_acc := if ik.1 < succ_pct.length then st1.s_acc ++ [succ_pct.getD ik.1 0] else st1.s_acc }
  { st2 with
    r_acc := if ik.1 < resp_s.length then st2.r_acc ++ [resp_s.getD ik.1 0] else st2.r_acc }

/-- Embedding of `downsample_series(keys, succ_pct, resp_s, bucket_min)`
(src/app.py lines 401-430): the enumerate loop over the minute keys
followed by the final `flush()`. -/
def downsample_series (keys : List ℕ) (succ_pct resp_s : List ℚ) (bucket_min : ℕ) :
    List (ℕ × ℚ × ℚ) :=
  match keys with
  | [] => []
  | k0 :: _ =>
    dsFlush (keys.enum.foldl (downsampleStep bucket_min succ_pct resp_s) ⟨[], k0, [], []⟩)

/-- Result record of `compute_summary` (src/app.py lines 274-399). -/
structure Summary where
  total_minutes : ℕ
  down_minutes : ℕ
  availability_pct : ℚ
  incidents : List (ℕ × ℕ × ℕ)
  avg_resp_s : Option ℚ
  p50_resp_s : Option ℚ
  p95_resp_s : Option ℚ
  p99_resp_s : Option ℚ
  daily : List (ℕ × ℚ × ℕ × ℕ)
  chart_rows : List (ℕ × ℚ × ℚ)
  mttr_min : Option ℚ
  mtbf_min : Option ℚ
deriving Repr, DecidableEq

/-- Ordering used for `keys = sorted(mp.keys())`. -/
def byMinute (a b : MinutePoint) : Prop :=
  a.minute ≤ b.minute

instance : DecidableRel byMinute := fun a b => Nat.decLe a.minute b.minute

/-- Embedding of `compute_summary(mp)` (src/app.py lines 274-399),
parameterized by the two environment-derived constants `FAIL_STREAK`
(`FS`, source default 3, forced `≥ 1` by `max(1, ...)`) and
`DOWNSAMPLE_MINUTES` (`DS`, source default 5, forced `≥ 1`).  The merged
dict is a list of minute points; `sorted(mp.keys())` sorts it by minute. -/
def computeSummary (FS DS : ℕ) (mp : List MinutePoint) : Summary :=
  let pts := mp.insertionSort byMinute
  if pts = [] then
    { total_minutes := 0, down_minutes := 0, availability_pct := 100, incidents := []
      avg_resp_s := none, p50_resp_s := none, p95_resp_s := none, p99_resp_s := none
      daily := [], chart_rows := [], mttr_min := none, mtbf_min := none }
  else
    let keys := pts.map (fun pt => pt.minute)
    let failures := minuteFailures pts
    let total_minutes := failures.length
    let inc := detectIncidents FS keys failures
    let down_minutes := inc.down
    let availability : ℚ := 1 - (down_minutes : ℚ) / ((max total_minutes 1 : ℕ) : ℚ)
    let availability_pct := pyRound (availability * 100) 3
    let resp_s_values := (perMinuteDurMs pts).map (fun v => v / 1000)
    let avg_resp_s : Option ℚ :=
      if resp_s_values = [] then none else some (listMean resp_s_values)
    let daily := ((dictKeys (perDayTotal pts)).insertionSort (· ≤ ·)).map (fun d =>
      let t := lookupD (perDayTotal pts) d 0
      let dn := lookupD inc.perDayDown d 0
      (d, pyRound (100 * (1 - (dn : ℚ) / ((max t 1 : ℕ) : ℚ))) 3, t, dn))
    let chart_rows := downsample_series keys (perMinuteSucc pts) resp_s_values DS
    let mttr : Option ℚ :=
      if inc.incidents = [] then none
      else some (pyRound ((inc.incidents.map (fun x => (x.2.2 : ℚ))).sum /
        (inc.incidents.length : ℚ)) 2)
    let mtbf : Option ℚ :=
      if inc.incidents = [] then none
      else some (pyRound (((total_minutes : ℚ) - (down_minutes : ℚ)) /
        (inc.incidents.length : ℚ)) 2)
    { total_minutes := total_minutes, down_minutes := down_minutes
      availability_pct := availability_pct, incidents := inc.incidents
      avg_resp_s := avg_resp_s.map (fun v => pyRound v 3)
      p50_resp_s := (percentile resp_s_values 50).map (fun v => pyRound v 3)
      p95_resp_s := (percentile resp_s_values 95).map (fun v => pyRound v 3)
      p99_resp_s := (percentile resp_s_values 99).map (fun v => pyRound v 3)
      daily := daily, chart_rows := chart_rows, mttr_min := mttr, mtbf_min := mtbf }

/-- Downtime contributed by a completed (or final) failing run of length
`r`: `r - FAIL_STREAK + 1` counted minutes if the run reached the streak
threshold, nothing otherwise. -/
def runContribution (FS r : ℕ) : ℕ :=
  if FS ≤ r then r - FS + 1 else 0

/-- Declarative form of the down-minute count of the incident scan: a
left-to-right walk that adds `runContribution` at each down-to-up
transition and for the final open run. -/
def streakDown (FS : ℕ) : ℕ → List ℕ → ℕ
  | r, [] => runContribution FS r
  | r, f :: rest =>
    if f = 1 then streakDown FS (r + 1) rest
    else runContribution FS r + streakDown FS 0 rest

/-- Sum of the recorded `duration_minutes` over a list of incidents. -/
def durSum (l : List (ℕ × ℕ × ℕ)) : ℕ :=
  (l.map (fun x => x.2.2)).sum

/-- Linear-interpolation percentile value at rank `k` over a sorted value
list, as the spec words it: interpolate between the values at positions
`⌊k⌋` and `⌈k⌉`. -/
def interpAtRank (s : List ℚ) (k : ℚ) : ℚ :=
  s.getD ⌊k⌋.toNat 0 + (s.getD ⌈k⌉.toNat 0 - s.getD ⌊k⌋.toNat 0) * (k - (⌊k⌋ : ℚ))

/-- Modelled from the spec: the success-sample set one minute of the
merged observation map contributes to the classifier (§4.2's "gather all
`succeeded` flags contributed that minute"). -/
def succSamplesAt (mp : List MinutePoint) (m : ℕ) : List ℚ :=
  ((mp.find? (fun pt => pt.minute == m)).map (fun pt => pt.succ)).getD []

/-- Modelled from the spec: the `treat_missing_as_down` minute classifier
of §4.2 and §6, a configuration switch absent from src/app.py (which
implements only the default skip-missing policy): walking the requested
window in order, a minute with success samples gets the all-flags
verdict; a minute without any is absent under the default policy and
synthesized as down (`1`) when the switch is enabled. -/
def classifyPolicy (tmd : Bool) (mp : List MinutePoint) : List ℕ → List ℕ
  | [] => []
  | m :: rest =>
    if succSamplesAt mp m ≠ [] then
      (if allOk (succSamplesAt mp m) then 0 else 1) :: classifyPolicy tmd mp rest
    else if tmd then 1 :: classifyPolicy tmd mp rest
    else classifyPolicy tmd mp rest

/-- Modelled from the spec: `total_minutes` under the missing-data policy
switch (count of classified minutes). -/
def policyTotalMinutes (tmd : Bool) (window : List ℕ) (mp : List MinutePoint) : ℕ :=
  (classifyPolicy tmd mp window).length

/-- Modelled from the spec: `down_minutes` under the missing-data policy
switch, counted by the same streak incident detector as
`compute_summary`. -/
def policyDownMinutes (FS : ℕ) (tmd : Bool) (window : List ℕ)
    (mp : List MinutePoint) : ℕ :=
  downMinutesOf FS window (classifyPolicy tmd mp window)

theorem durSum_append (l : List (ℕ × ℕ × ℕ)) (x : ℕ × ℕ × ℕ) :
    durSum (l ++ [x]) = durSum l + x.2.2 := by
  simp [durSum]

/-- Main characterization of the enumerate scan: its running `down` total
matches the declarative `streakDown`, its `down` equals the recorded
incident durations, and the run bookkeeping (`run_len`, `run_start_idx`)
stays consistent with the enumeration index. -/
theorem incidentScan_spec (FS : ℕ) (hFS : 0 < FS) (keys : List ℕ) (fs : List ℕ) :
    ∀ (i0 : ℕ) (st : IncState),
      st.run_len ≤ i0 →
      (0 < st.run_len → st.run_start_idx = some (i0 - st.run_len)) →
      (incidentScan FS keys (List.enumFrom i0 fs) st).run_len ≤ i0 + fs.length ∧
      (0 < (incidentScan FS keys (List.enumFrom i0 fs) st).run_len →
        (incidentScan FS keys (List.enumFrom i0 fs) st).run_start_idx
          = some (i0 + fs.length - (incidentScan FS keys (List.enumFrom i0 fs) st).run_len)) ∧
      (incidentScan FS keys (List.enumFrom i0 fs) st).down
          + runContribution FS (incidentScan FS keys (List.enumFrom i0 fs) st).run_len
        = st.down + streakDown FS st.run_len fs ∧
      (incidentScan FS keys (List.enumFrom i0 fs) st).down + durSum st.incidents
        = st.down + durSum (incidentScan FS keys (List.enumFrom i0 fs) st).incidents := by
  induction fs with
  | nil =>
    intro i0 st h1 h2
    simp only [List.enumFrom, incidentScan, List.length_nil, Nat.add_zero, streakDown]
    exact ⟨h1, h2, trivial, trivial⟩
  | cons f rest ih =>
    intro i0 st h1 h2
    have henum : List.enumFrom i0 (f :: rest) = (i0, f) :: List.enumFrom (i0 + 1) rest := by
      simp [List.enumFrom]
    rw [henum]
    simp only [List.length_cons]
    by_cases hf : f = 1
    · -- failing minute: extend the current run
      simp only [incidentScan, if_pos hf]
      set st1 : IncState :=
        { st with
          run_start_idx := if st.run_len = 0 then some i0 else st.run_start_idx
          run_len := st.run_len + 1 } with hst1
      have hrl1 : st1.run_len ≤ i0 + 1 := by simp [hst1]; omega
      have hrs1 : 0 < st1.run_len → st1.run_start_idx = some (i0 + 1 - st1.run_len) := by
        intro _
        by_cases h0 : st.run_len = 0
        · simp only [hst1, h0, if_pos rfl]
          exact congrArg some (by omega)
        · have hx := h2 (Nat.pos_of_ne_zero h0)
          simp only [hst1, h0, if_neg h0, hx]
          exact congrArg some (by omega)
      obtain ⟨c1, c2, c3, c4⟩ := ih (i0 + 1) st1 hrl1 hrs1
      refine ⟨by simpa [Nat.add_comm, Nat.add_assoc, Nat.add_left_comm] using c1, ?_, ?_, ?_⟩
      · intro hpos
        exact (c2 hpos).trans (by exact congrArg some (by omega))
      · rw [c3]
        have hstep : streakDown FS st.run_len (f :: rest)
            = streakDown FS (st.run_len + 1) rest := by
          simp [streakDown, hf]
        rw [hstep]
        try simp [hst1]
      · simpa [hst1] using c4
    · -- up minute: close the current run, possibly emitting an incident
      simp only [incidentScan, if_neg hf]
      set st1 : IncState := if FS ≤ st.run_len then emitIncident FS keys i0 st else st with hst1
      set st2 : IncState := { st1 with run_len := 0, run_start_idx := none } with hst2
      have hdown : st2.down = st.down + runContribution FS st.run_len := by
        by_cases hle : FS ≤ st.run_len
        · have hpos : 0 < st.run_len := lt_of_lt_of_le hFS hle
          have hrs := h2 hpos
          simp [hst2, hst1, hle, emitIncident, hrs, runContribution]
          omega
        · simp [hst2, hst1, hle, runContribution]
      have hinc : durSum st2.incidents = durSum st.incidents
          + (st2.down - st.down) := by
        by_cases hle : FS ≤ st.run_len
        · have hpos : 0 < st.run_len := lt_of_lt_of_le hFS hle
          have hrs := h2 hpos
          simp [hst2, hst1, hle, emitIncident, hrs, durSum_append]
          try omega
        · simp [hst2, hst1, hle]
      obtain ⟨c1, c2, c3, c4⟩ := ih (i0 + 1) st2 (by simp [hst2]) (by simp [hst2])
      have hsd : streakDown FS st.run_len (f :: rest)
          = runContribution FS st.run_len + streakDown FS 0 rest := by
        simp [streakDown, hf]
      refine ⟨by simpa [Nat.add_comm, Nat.add_assoc, Nat.add_left_comm] using c1, ?_, ?_, ?_⟩
      · intro hpos
        exact (c2 hpos).trans (by exact congrArg some (by omega))
      · rw [c3, hsd, hdown]
        have hz : st2.run_len = 0 := by simp [hst2]
        rw [hz]
        omega
      · have hd2 : st.down ≤ st2.down := by rw [hdown]; omega
        have hi2 : durSum st2.incidents = durSum st.incidents + (st2.down - st.down) := hinc
        omega

/-- Empty classified series: the incident detector returns the initial
state (no incidents, no down minutes). -/
theorem detectIncidents_nil (FS : ℕ) (hFS : 0 < FS) (keys : List ℕ) :
    detectIncidents FS keys [] = ⟨[], 0, [], 0, none⟩ := by
  have : ¬ FS ≤ 0 := by omega
  simp [detectIncidents, List.enum, List.enumFrom, incidentScan, this]

/-- The `down_minutes` computed by the full incident detection equals the
declarative streak count. -/
theorem detectIncidents_down (FS : ℕ) (hFS : 0 < FS) (keys fs : List ℕ) :
    (detectIncidents FS keys fs).down = streakDown FS 0 fs := by
  unfold detectIncidents
  have h := incidentScan_spec FS hFS keys fs 0 ⟨[], 0, [], 0, none⟩ (by simp) (by simp)
  rw [show List.enumFrom 0 fs = fs.enum from rfl] at h
  obtain ⟨c1, c2, c3, c4⟩ := h
  set st := incidentScan FS keys fs.enum ⟨[], 0, [], 0, none⟩ with hst
  have c1' : st.run_len ≤ fs.length := by simpa using c1
  have c3' : st.down + runContribution FS st.run_len = streakDown FS 0 fs := by
    simpa using c3
  unfold runContribution at c3'
  by_cases hle : FS ≤ st.run_len
  · have hpos : 0 < st.run_len := lt_of_lt_of_le hFS hle
    have hrs := c2 hpos
    rw [if_pos hle]
    rw [if_pos hle] at c3'
    show st.down + (fs.length - 1 + 1 - (st.run_start_idx.getD 0 + FS - 1))
        = streakDown FS 0 fs
    rw [hrs]
    simp only [Option.getD_some]
    omega
  · rw [if_neg hle]
    rw [if_neg hle] at c3'
    omega

/-- The `down_minutes` computed by the incident detection equals the sum
of the emitted incidents' recorded durations. -/
theorem detectIncidents_durSum (FS : ℕ) (hFS : 0 < FS) (keys fs : List ℕ) :
    (detectIncidents FS keys fs).down = durSum (detectIncidents FS keys fs).incidents := by
  unfold detectIncidents
  have h := incidentScan_spec FS hFS keys fs 0 ⟨[], 0, [], 0, none⟩ (by simp) (by simp)
  rw [show List.enumFrom 0 fs = fs.enum from rfl] at h
  obtain ⟨c1, c2, c3, c4⟩ := h
  set st := incidentScan FS keys fs.enum ⟨[], 0, [], 0, none⟩ with hst
  have c4' : st.down = durSum st.incidents := by simpa [durSum] using c4
  by_cases hle : FS ≤ st.run_len
  · rw [if_pos hle]
    show st.down + (fs.length - 1 + 1 - (st.run_start_idx.getD 0 + FS - 1))
        = durSum (st.incidents ++ [(keys.getD (st.run_start_idx.getD 0 + FS - 1) 0,
            keys.getD (fs.length - 1) 0,
            fs.length - 1 + 1 - (st.run_start_idx.getD 0 + FS - 1))])
    rw [durSum_append]
    dsimp only
    omega
  · rw [if_neg hle]
    exact c4'

theorem runContribution_le (FS : ℕ) (hFS : 0 < FS) (r : ℕ) : runContribution FS r ≤ r := by
  unfold runContribution
  split <;> omega

theorem runContribution_mono (FS : ℕ) {r r' : ℕ} (h : r ≤ r') :
    runContribution FS r ≤ runContribution FS r' := by
  unfold runContribution
  split <;> split <;> omega

theorem streakDown_le (FS : ℕ) (hFS : 0 < FS) : ∀ (fs : List ℕ) (r : ℕ),
    streakDown FS r fs ≤ r + fs.length
  | [], r => by simpa [streakDown] using runContribution_le FS hFS r
  | f :: rest, r => by
    simp only [streakDown, List.length_cons]
    by_cases hf : f = 1
    · rw [if_pos hf]
      have := streakDown_le FS hFS rest (r + 1)
      omega
    · rw [if_neg hf]
      have h1 := streakDown_le FS hFS rest 0
      have h2 := runContribution_le FS hFS r
      omega

theorem streakDown_mono (FS : ℕ) : ∀ (fs : List ℕ) {r r' : ℕ}, r ≤ r' →
    streakDown FS r fs ≤ streakDown FS r' fs
  | [], r, r', h => by simpa [streakDown] using runContribution_mono FS h
  | f :: rest, r, r', h => by
    simp only [streakDown]
    by_cases hf : f = 1
    · rw [if_pos hf, if_pos hf]
      exact streakDown_mono FS rest (by omega)
    · rw [if_neg hf, if_neg hf]
      have := runContribution_mono FS h
      omega

/-! ### Basic lemmas about the rounding model and means -/

theorem le_rndHalfEven {x : ℚ} {n : ℤ} (h : (n : ℚ) ≤ x) : n ≤ rndHalfEven x := by
  have hf : n ≤ ⌊x⌋ := Int.le_floor.mpr h
  unfold rndHalfEven
  dsimp only
  split
  · exact hf
  · split
    · omega
    · split <;> omega

theorem rndHalfEven_le {x : ℚ} {n : ℤ} (h : x ≤ (n : ℚ)) : rndHalfEven x ≤ n := by
  have hf : ⌊x⌋ ≤ n := by
    have := Int.floor_le_floor h
    simpa using this
  unfold rndHalfEven
  dsimp only
  split
  · exact hf
  · rename_i h1
    push_neg at h1
    have hlt : (⌊x⌋ : ℚ) < (n : ℚ) := by
      have hxf : (⌊x⌋ : ℚ) + 1/2 ≤ x := by linarith
      linarith
    have : ⌊x⌋ < n := by exact_mod_cast hlt
    split
    · omega
    · split <;> omega

theorem pyRound_nonneg {x : ℚ} (n : ℕ) (h : 0 ≤ x) : 0 ≤ pyRound x n := by
  unfold pyRound
  have hx : ((0 : ℤ) : ℚ) ≤ x * 10 ^ n := by positivity
  have := le_rndHalfEven hx
  have hnum : (0 : ℚ) ≤ (rndHalfEven (x * 10 ^ n) : ℚ) := by exact_mod_cast this
  positivity

theorem pyRound_le_hundred {x : ℚ} (n : ℕ) (h : x ≤ 100) : pyRound x n ≤ 100 := by
  unfold pyRound
  have hpow : (0 : ℚ) < 10 ^ n := by positivity
  have hx : x * 10 ^ n ≤ ((100 * 10 ^ n : ℤ) : ℚ) := by
    push_cast
    nlinarith
  have hr := rndHalfEven_le hx
  have hnum : (rndHalfEven (x * 10 ^ n) : ℚ) ≤ ((100 * 10 ^ n : ℤ) : ℚ) := by exact_mod_cast hr
  rw [div_le_iff₀ hpow]
  push_cast at hnum ⊢
  linarith

theorem listMean_nonneg {l : List ℚ} (h : ∀ v ∈ l, 0 ≤ v) : 0 ≤ listMean l := by
  unfold listMean
  have hs : 0 ≤ l.sum := List.sum_nonneg h
  positivity

theorem listMean_le_hundred {l : List ℚ} (hne : l ≠ []) (h : ∀ v ∈ l, v ≤ 100) :
    listMean l ≤ 100 := by
  unfold listMean
  have hlen : 0 < (l.length : ℚ) := by
    have : 0 < l.length := List.length_pos.mpr hne
    exact_mod_cast this
  have hs : l.sum ≤ (l.length : ℚ) * 100 := by
    have := List.sum_le_card_nsmul l 100 h
    simpa [nsmul_eq_mul] using this
  rw [div_le_iff₀ hlen]
  linarith

/-! ### Python `min` / `max` versus the sorted list -/

theorem foldl_min_le_init : ∀ (xs : List ℚ) (x : ℚ), xs.foldl min x ≤ x
  | [], x => le_refl x
  | y :: ys, x => le_trans (foldl_min_le_init ys (min x y)) (min_le_left x y)

theorem foldl_min_le_mem : ∀ (xs : List ℚ) (x y : ℚ), y ∈ xs → xs.foldl min x ≤ y
  | z :: ys, x, y, h => by
    rcases List.mem_cons.mp h with h | h
    · subst h
      exact le_trans (foldl_min_le_init ys (min x y)) (min_le_right x y)
    · exact foldl_min_le_mem ys (min x z) y h

theorem foldl_min_mem : ∀ (xs : List ℚ) (x : ℚ), xs.foldl min x ∈ x :: xs
  | [], x => List.mem_singleton_self x
  | y :: ys, x => by
    simp only [List.foldl_cons]
    rcases List.mem_cons.mp (foldl_min_mem ys (min x y)) with h | h
    · rw [h]
      rcases min_choice x y with hc | hc <;> rw [hc]
      · exact List.mem_cons_self _ _
      · exact List.mem_cons_of_mem _ (List.mem_cons_self _ _)
    · exact List.mem_cons_of_mem _ (List.mem_cons_of_mem _ h)

theorem foldl_max_init_le : ∀ (xs : List ℚ) (x : ℚ), x ≤ xs.foldl max x
  | [], x => le_refl x
  | y :: ys, x => le_trans (le_max_left x y) (foldl_max_init_le ys (max x y))

theorem foldl_max_mem_le : ∀ (xs : List ℚ) (x y : ℚ), y ∈ xs → y ≤ xs.foldl max x
  | z :: ys, x, y, h => by
    rcases List.mem_cons.mp h with h | h
    · subst h
      exact le_trans (le_max_right x y) (foldl_max_init_le ys (max x y))
    · exact foldl_max_mem_le ys (max x z) y h

theorem foldl_max_mem : ∀ (xs : List ℚ) (x : ℚ), xs.foldl max x ∈ x :: xs
  | [], x => List.mem_singleton_self x
  | y :: ys, x => by
    simp only [List.foldl_cons]
    rcases List.mem_cons.mp (foldl_max_mem ys (max x y)) with h | h
    · rw [h]
      rcases max_choice x y with hc | hc <;> rw [hc]
      · exact List.mem_cons_self _ _
      · exact List.mem_cons_of_mem _ (List.mem_cons_self _ _)
    · exact List.mem_cons_of_mem _ (List.mem_cons_of_mem _ h)

theorem listMin_mem : ∀ {v : List ℚ}, v ≠ [] → listMin v ∈ v
  | [], h => absurd rfl h
  | x :: xs, _ => by simpa [listMin] using foldl_min_mem xs x

theorem listMin_le : ∀ {v : List ℚ}, v ≠ [] → ∀ y ∈ v, listMin v ≤ y
  | [], h => absurd rfl h
  | x :: xs, _ => by
    intro y hy
    rcases List.mem_cons.mp hy with h | h
    · rw [h]
      exact foldl_min_le_init xs x
    · exact foldl_min_le_mem xs x y h

theorem listMax_mem : ∀ {v : List ℚ}, v ≠ [] → listMax v ∈ v
  | [], h => absurd rfl h
  | x :: xs, _ => by simpa [listMax] using foldl_max_mem xs x

theorem le_listMax : ∀ {v : List ℚ}, v ≠ [] → ∀ y ∈ v, y ≤ listMax v
  | [], h => absurd rfl h
  | x :: xs, _ => by
    intro y hy
    rcases List.mem_cons.mp hy with h | h
    · rw [h]
      exact foldl_max_init_le xs x
    · exact foldl_max_mem_le xs x y h

theorem sorted_last_spec : ∀ (s : List ℚ), List.Sorted (· ≤ ·) s → s ≠ [] →
    s.getD (s.length - 1) 0 ∈ s ∧ ∀ y ∈ s, y ≤ s.getD (s.length - 1) 0
  | [x], _, _ => by
    refine ⟨by simp, ?_⟩
    intro y hy
    rw [List.mem_singleton.mp hy]
    simp
  | x :: y :: t, hs, _ => by
    obtain ⟨hx_le, hs2⟩ := List.sorted_cons.mp hs
    obtain ⟨hmem, hmax⟩ := sorted_last_spec (y :: t) hs2 (by simp)
    have hgd : (x :: y :: t).getD ((x :: y :: t).length - 1) 0
        = (y :: t).getD ((y :: t).length - 1) 0 := by
      simp [List.getD_cons_succ]
    refine ⟨?_, ?_⟩
    · rw [hgd]
      exact List.mem_cons_of_mem x hmem
    · intro z hz
      rw [hgd]
      rcases List.mem_cons.mp hz with h | h
      · rw [h]
        exact hx_le _ hmem
      · exact hmax z h

theorem sorted_head_spec (s : List ℚ) (hs : List.Sorted (· ≤ ·) s) (hne : s ≠ []) :
    s.getD 0 0 ∈ s ∧ ∀ y ∈ s, s.getD 0 0 ≤ y := by
  obtain ⟨a, t, rfl⟩ := List.exists_cons_of_ne_nil hne
  refine ⟨List.mem_cons_self a t, ?_⟩
  intro y hy
  rcases List.mem_cons.mp hy with h | h
  · rw [h]
    simp
  · exact List.rel_of_sorted_cons hs y h

/-- Python `min(values)` is the head of the sorted list. -/
theorem listMin_eq_sorted (v : List ℚ) (hne : v ≠ []) :
    listMin v = (v.insertionSort (· ≤ ·)).getD 0 0 := by
  have hperm : List.Perm (v.insertionSort (· ≤ ·)) v := List.perm_insertionSort _ v
  have hsne : v.insertionSort (· ≤ ·) ≠ [] := by
    intro h
    apply hne
    have := hperm.length_eq
    rw [h] at this
    exact List.length_eq_zero.mp this.symm
  have hsorted : List.Sorted (· ≤ ·) (v.insertionSort (· ≤ ·)) :=
    List.sorted_insertionSort _ v
  obtain ⟨hhead_mem, hhead_le⟩ := sorted_head_spec _ hsorted hsne
  apply le_antisymm
  · exact listMin_le hne _ (hperm.subset hhead_mem)
  · exact hhead_le _ (hperm.mem_iff.mpr (listMin_mem hne))

/-- Python `max(values)` is the last element of the sorted list. -/
theorem listMax_eq_sorted (v : List ℚ) (hne : v ≠ []) :
    listMax v = (v.insertionSort (· ≤ ·)).getD
      ((v.insertionSort (· ≤ ·)).length - 1) 0 := by
  have hperm : List.Perm (v.insertionSort (· ≤ ·)) v := List.perm_insertionSort _ v
  have hsne : v.insertionSort (· ≤ ·) ≠ [] := by
    intro h
    apply hne
    have := hperm.length_eq
    rw [h] at this
    exact List.length_eq_zero.mp this.symm
  have hsorted : List.Sorted (· ≤ ·) (v.insertionSort (· ≤ ·)) :=
    List.sorted_insertionSort _ v
  obtain ⟨hlast_mem, hlast_ge⟩ := sorted_last_spec _ hsorted hsne
  apply le_antisymm
  · exact hlast_ge _ (hperm.mem_iff.mpr (listMax_mem hne))
  · exact le_listMax hne _ (hperm.subset hlast_mem)

/-- Refinement of `percentile` against the spec's interpolation formula:
on a non-empty value list and `0 ≤ p ≤ 100`, all three source branches
(`p ≤ 0` returning `min`, `p ≥ 100` returning `max`, and the interpolating
branch) compute the linear interpolation at rank `(n - 1) * p / 100` over
the sorted values. -/
theorem percentile_interp (v : List ℚ) (p : ℚ) (hne : v ≠ []) (h0 : 0 ≤ p)
    (h100 : p ≤ 100) :
    percentile v p = some (interpAtRank (v.insertionSort (· ≤ ·))
      (((v.insertionSort (· ≤ ·)).length - 1 : ℕ) * (p / 100))) := by
  have hsne : v.insertionSort (· ≤ ·) ≠ [] := by
    intro h
    apply hne
    have hl := (List.perm_insertionSort (· ≤ ·) v).length_eq
    rw [h] at hl
    exact List.length_eq_zero.mp hl.symm
  unfold percentile
  rw [if_neg hne]
  by_cases hple : p ≤ 0
  · have hp : p = 0 := le_antisymm hple h0
    subst hp
    rw [if_pos hple]
    have hk0 : (((v.insertionSort (· ≤ ·)).length - 1 : ℕ) : ℚ) * ((0 : ℚ) / 100)
        = 0 := by ring
    rw [hk0]
    unfold interpAtRank
    rw [listMin_eq_sorted v hne]
    norm_num
  · rw [if_neg hple]
    by_cases hpge : (100 : ℚ) ≤ p
    · have hp : p = 100 := le_antisymm h100 hpge
      subst hp
      rw [if_pos hpge]
      have hk1 : (((v.insertionSort (· ≤ ·)).length - 1 : ℕ) : ℚ) * ((100 : ℚ) / 100)
          = (((v.insertionSort (· ≤ ·)).length - 1 : ℕ) : ℚ) := by ring
      rw [hk1]
      unfold interpAtRank
      rw [listMax_eq_sorted v hne]
      norm_num
    · rw [if_neg hpge]
      have hppos : 0 < p := lt_of_not_ge hple
      have hk0 : (0 : ℚ) ≤ (((v.insertionSort (· ≤ ·)).length - 1 : ℕ) : ℚ) * (p / 100) := by
        positivity
      dsimp only
      by_cases hfc : (⌊(((v.insertionSort (· ≤ ·)).length - 1 : ℕ) : ℚ) * (p / 100)⌋.toNat)
          = (⌈(((v.insertionSort (· ≤ ·)).length - 1 : ℕ) : ℚ) * (p / 100)⌉.toNat)
      · rw [if_pos hfc]
        unfold interpAtRank
        rw [← hfc]
        simp
      · rw [if_neg hfc]
        unfold interpAtRank
        refine congrArg some ?_
        have hfnn : 0 ≤ ⌊(((v.insertionSort (· ≤ ·)).length - 1 : ℕ) : ℚ) * (p / 100)⌋ :=
          Int.floor_nonneg.mpr hk0
        have hcnn : 0 ≤ ⌈(((v.insertionSort (· ≤ ·)).length - 1 : ℕ) : ℚ) * (p / 100)⌉ :=
          Int.ceil_nonneg hk0
        have hle1 := Int.floor_le_ceil (((v.insertionSort (· ≤ ·)).length - 1 : ℕ) : ℚ)
        have hle2 := Int.ceil_le_floor_add_one
          ((((v.insertionSort (· ≤ ·)).length - 1 : ℕ) : ℚ) * (p / 100))
        have hle3 := Int.floor_le_ceil
          ((((v.insertionSort (· ≤ ·)).length - 1 : ℕ) : ℚ) * (p / 100))
        have hceil : ⌈(((v.insertionSort (· ≤ ·)).length - 1 : ℕ) : ℚ) * (p / 100)⌉
            = ⌊(((v.insertionSort (· ≤ ·)).length - 1 : ℕ) : ℚ) * (p / 100)⌋ + 1 := by
          have hneq : ⌊(((v.insertionSort (· ≤ ·)).length - 1 : ℕ) : ℚ) * (p / 100)⌋
              ≠ ⌈(((v.insertionSort (· ≤ ·)).length - 1 : ℕ) : ℚ) * (p / 100)⌉ := by
            intro h
            exact hfc (by rw [h])
          omega
        have hcast_f : ((⌊(((v.insertionSort (· ≤ ·)).length - 1 : ℕ) : ℚ) * (p / 100)⌋.toNat : ℕ) : ℚ)
            = (⌊(((v.insertionSort (· ≤ ·)).length - 1 : ℕ) : ℚ) * (p / 100)⌋ : ℚ) := by
          rw [show ((⌊(((v.insertionSort (· ≤ ·)).length - 1 : ℕ) : ℚ) * (p / 100)⌋.toNat : ℕ) : ℚ)
              = ((⌊(((v.insertionSort (· ≤ ·)).length - 1 : ℕ) : ℚ) * (p / 100)⌋.toNat : ℤ) : ℚ) by push_cast; ring]
          rw [Int.toNat_of_nonneg hfnn]
        have hcast_c : ((⌈(((v.insertionSort (· ≤ ·)).length - 1 : ℕ) : ℚ) * (p / 100)⌉.toNat : ℕ) : ℚ)
            = (⌊(((v.insertionSort (· ≤ ·)).length - 1 : ℕ) : ℚ) * (p / 100)⌋ : ℚ) + 1 := by
          rw [show ((⌈(((v.insertionSort (· ≤ ·)).length - 1 : ℕ) : ℚ) * (p / 100)⌉.toNat : ℕ) : ℚ)
              = ((⌈(((v.insertionSort (· ≤ ·)).length - 1 : ℕ) : ℚ) * (p / 100)⌉.toNat : ℤ) : ℚ) by push_cast; ring]
          rw [Int.toNat_of_nonneg hcnn, hceil]
          push_cast
          ring
        rw [hcast_f, hcast_c]
        ring

/-! ### Downsampler invariants -/

theorem dsFlush_spec (first w j : ℕ) (st : DSState)
    (halign : st.b_start = first + j * w) (hlen : st.rows.length ≤ j)
    (hrows : ∀ r ∈ st.rows, (∃ j2, r.1 = first + j2 * w) ∧ 0 ≤ r.2.1 ∧ r.2.1 ≤ 100)
    (hacc : ∀ x ∈ st.s_acc, 0 ≤ x ∧ x ≤ 100) :
    (dsFlush st).length ≤ j + 1
    ∧ ∀ r ∈ dsFlush st, (∃ j2, r.1 = first + j2 * w) ∧ 0 ≤ r.2.1 ∧ r.2.1 ≤ 100 := by
  unfold dsFlush
  by_cases hemp : st.s_acc = [] ∧ st.r_acc = []
  · rw [if_pos hemp]
    exact ⟨le_trans hlen (Nat.le_succ j), hrows⟩
  · rw [if_neg hemp]
    have havg : 0 ≤ (if st.s_acc = [] then 0 else listMean st.s_acc)
        ∧ (if st.s_acc = [] then 0 else listMean st.s_acc) ≤ 100 := by
      by_cases hs : st.s_acc = []
      · rw [if_pos hs]
        norm_num
      · rw [if_neg hs]
        exact ⟨listMean_nonneg (fun v hv => (hacc v hv).1),
          listMean_le_hundred hs (fun v hv => (hacc v hv).2)⟩
    constructor
    · rw [List.length_append, List.length_singleton]
      omega
    · intro r hr
      rcases List.mem_append.mp hr with hr | hr
      · exact hrows r hr
      · rw [List.mem_singleton.mp hr]
        exact ⟨⟨j, halign⟩, pyRound_nonneg 3 havg.1, pyRound_le_hundred 3 havg.2⟩

theorem dsAdvance_inv (first w k : ℕ) (hw : 0 < w) :
    ∀ (fuel : ℕ) (st : DSState),
      (∃ j, st.b_start = first + j * w ∧ st.rows.length ≤ j) →
      (∀ r ∈ st.rows, (∃ j2, r.1 = first + j2 * w) ∧ 0 ≤ r.2.1 ∧ r.2.1 ≤ 100) →
      (∀ x ∈ st.s_acc, 0 ≤ x ∧ x ≤ 100) →
      (∃ j, (dsAdvance w k fuel st).b_start = first + j * w
          ∧ (dsAdvance w k fuel st).rows.length ≤ j)
      ∧ (∀ r ∈ (dsAdvance w k fuel st).rows,
          (∃ j2, r.1 = first + j2 * w) ∧ 0 ≤ r.2.1 ∧ r.2.1 ≤ 100)
      ∧ (∀ x ∈ (dsAdvance w k fuel st).s_acc, 0 ≤ x ∧ x ≤ 100)
      ∧ ((dsAdvance w k fuel st).b_start = st.b_start
          ∨ (dsAdvance w k fuel st).b_start ≤ k) := by
  intro fuel
  induction fuel with
  | zero =>
    intro st halign hrows hacc
    exact ⟨halign, hrows, hacc, Or.inl rfl⟩
  | succ fuel ih =>
    intro st halign hrows hacc
    show _ ∧ _
    unfold dsAdvance
    by_cases hcond : st.b_start + w ≤ k
    · rw [if_pos hcond]
      obtain ⟨j, hj, hlen⟩ := halign
      obtain ⟨hflen, hfrows⟩ := dsFlush_spec first w j st hj hlen hrows hacc
      have halign2 : ∃ j2, (⟨dsFlush st, st.b_start + w, [], []⟩ : DSState).b_start
          = first + j2 * w
          ∧ (⟨dsFlush st, st.b_start + w, [], []⟩ : DSState).rows.length ≤ j2 := by
        refine ⟨j + 1, ?_, hflen⟩
        dsimp only
        rw [hj]
        ring
      obtain ⟨c1, c2, c3, c4⟩ := ih ⟨dsFlush st, st.b_start + w, [], []⟩ halign2
        hfrows (by intro x hx; simp at hx)
      refine ⟨c1, c2, c3, Or.inr ?_⟩
      rcases c4 with c4 | c4
      · rw [c4]
        exact hcond
      · exact c4
    · rw [if_neg hcond]
      exact ⟨halign, hrows, hacc, Or.inl rfl⟩

theorem downsampleStep_fields (w : ℕ) (succ resp : List ℚ) (st : DSState) (ik : ℕ × ℕ) :
    (downsampleStep w succ resp st ik).b_start = (dsAdvance w ik.2 (ik.2 + 1) st).b_start
    ∧ (downsampleStep w succ resp st ik).rows = (dsAdvance w ik.2 (ik.2 + 1) st).rows
    ∧ (downsampleStep w succ resp st ik).s_acc
        = (if ik.1 < succ.length
            then (dsAdvance w ik.2 (ik.2 + 1) st).s_acc ++ [succ.getD ik.1 0]
            else (dsAdvance w ik.2 (ik.2 + 1) st).s_acc) := by
  unfold downsampleStep
  by_cases h1 : ik.1 < succ.length <;> by_cases h2 : ik.1 < resp.length <;>
    simp [h1, h2]

theorem dsLoop_inv (first w K : ℕ) (hw : 0 < w) (succ resp : List ℚ)
    (hsucc : ∀ x ∈ succ, 0 ≤ x ∧ x ≤ 100) :
    ∀ (iks : List (ℕ × ℕ)) (st : DSState),
      (∃ j, st.b_start = first + j * w ∧ st.rows.length ≤ j) →
      (∀ r ∈ st.rows, (∃ j2, r.1 = first + j2 * w) ∧ 0 ≤ r.2.1 ∧ r.2.1 ≤ 100) →
      (∀ x ∈ st.s_acc, 0 ≤ x ∧ x ≤ 100) →
      st.b_start ≤ K →
      (∀ ik ∈ iks, ik.2 ≤ K) →
      (∃ j, (iks.foldl (downsampleStep w succ resp) st).b_start = first + j * w
          ∧ (iks.foldl (downsampleStep w succ resp) st).rows.length ≤ j)
      ∧ (∀ r ∈ (iks.foldl (downsampleStep w succ resp) st).rows,
          (∃ j2, r.1 = first + j2 * w) ∧ 0 ≤ r.2.1 ∧ r.2.1 ≤ 100)
      ∧ (∀ x ∈ (iks.foldl (downsampleStep w succ resp) st).s_acc, 0 ≤ x ∧ x ≤ 100)
      ∧ (iks.foldl (downsampleStep w succ resp) st).b_start ≤ K := by
  intro iks
  induction iks with
  | nil =>
    intro st halign hrows hacc hK _
    exact ⟨halign, hrows, hacc, hK⟩
  | cons ik rest ih =>
    intro st halign hrows hacc hK hks
    simp only [List.foldl_cons]
    obtain ⟨a1, a2, a3, a4⟩ := dsAdvance_inv first w ik.2 hw (ik.2 + 1) st halign hrows hacc
    obtain ⟨f1, f2, f3⟩ := downsampleStep_fields w succ resp st ik
    have hkK : ik.2 ≤ K := hks ik (List.mem_cons_self ik rest)
    have hstep_align : ∃ j, (downsampleStep w succ resp st ik).b_start = first + j * w
        ∧ (downsampleStep w succ resp st ik).rows.length ≤ j := by
      rw [f1, f2]
      exact a1
    have hstep_rows : ∀ r ∈ (downsampleStep w succ resp st ik).rows,
        (∃ j2, r.1 = first + j2 * w) ∧ 0 ≤ r.2.1 ∧ r.2.1 ≤ 100 := by
      rw [f2]
      exact a2
    have hstep_acc : ∀ x ∈ (downsampleStep w succ resp st ik).s_acc,
        0 ≤ x ∧ x ≤ 100 := by
      rw [f3]
      by_cases h1 : ik.1 < succ.length
      · rw [if_pos h1]
        intro x hx
        rcases List.mem_append.mp hx with hx | hx
        · exact a3 x hx
        · rw [List.mem_singleton.mp hx]
          have hget : succ.getD ik.1 0 ∈ succ := by
            rw [List.getD_eq_getElem succ 0 h1]
            exact List.getElem_mem h1
          exact hsucc _ hget
      · rw [if_neg h1]
        exact a3
    have hstep_K : (downsampleStep w succ resp st ik).b_start ≤ K := by
      rw [f1]
      rcases a4 with a4 | a4
      · rw [a4]
        exact hK
      · exact le_trans a4 hkK
    exact ih (downsampleStep w succ resp st ik) hstep_align hstep_rows hstep_acc
      hstep_K (fun x hx => hks x (List.mem_cons_of_mem ik hx))

theorem pairwise_le_getLastQ : ∀ (l : List ℕ), List.Pairwise (· ≤ ·) l →
    ∀ m, l.getLast? = some m → ∀ x ∈ l, x ≤ m
  | [], _, m, h => by simp at h
  | [a], _, m, h => by
    intro x hx
    simp at h hx
    omega
  | a :: b :: t, hp, m, h => by
    intro x hx
    have hgl : (a :: b :: t).getLast? = (b :: t).getLast? := List.getLast?_cons_cons
    rw [hgl] at h
    obtain ⟨ha_le, hp2⟩ := List.pairwise_cons.mp hp
    rcases List.mem_cons.mp hx with rfl | hmem
    · have hm_mem : m ∈ b :: t := by
        have := List.getLast?_eq_getLast (b :: t) (by simp)
        rw [this] at h
        have hml : m = (b :: t).getLast (by simp) := (Option.some_inj.mp h).symm
        rw [hml]
        exact List.getLast_mem _
      exact ha_le m hm_mem
    · exact pairwise_le_getLastQ (b :: t) hp2 m h x hmem

/-! ### Unfolding `computeSummary` on dict-like inputs -/

/-- Sorting by minute leaves a strictly minute-sorted list (a valid dict
key order) unchanged. -/
theorem sortByMinute_eq {mp : List MinutePoint}
    (hsort : List.Pairwise (fun a b => a.minute < b.minute) mp) :
    mp.insertionSort byMinute = mp :=
  List.Sorted.insertionSort_eq (hsort.imp (fun hab => le_of_lt hab))

/-- The empty-input early return of `compute_summary` (src/app.py lines
285-299). -/
theorem computeSummary_nil (FS DS : ℕ) :
    computeSummary FS DS [] =
      { total_minutes := 0, down_minutes := 0, availability_pct := 100, incidents := []
        avg_resp_s := none, p50_resp_s := none, p95_resp_s := none, p99_resp_s := none
        daily := [], chart_rows := [], mttr_min := none, mtbf_min := none } := rfl

/-- Unfolded form of `computeSummary` on a non-empty, strictly
minute-sorted input. -/
theorem computeSummary_eq (FS DS : ℕ) (mp : List MinutePoint)
    (hsort : List.Pairwise (fun a b => a.minute < b.minute) mp) (hne : mp ≠ []) :
    computeSummary FS DS mp =
      { total_minutes := (minuteFailures mp).length
        down_minutes := (detectIncidents FS (mp.map (fun pt => pt.minute))
          (minuteFailures mp)).down
        availability_pct := pyRound ((1
          - ((detectIncidents FS (mp.map (fun pt => pt.minute)) (minuteFailures mp)).down : ℚ)
            / ((max (minuteFailures mp).length 1 : ℕ) : ℚ)) * 100) 3
        incidents := (detectIncidents FS (mp.map (fun pt => pt.minute))
          (minuteFailures mp)).incidents
        avg_resp_s := (if (perMinuteDurMs mp).map (fun v => v / 1000) = [] then none
            else some (listMean ((perMinuteDurMs mp).map (fun v => v / 1000)))).map
          (fun v => pyRound v 3)
        p50_resp_s := (percentile ((perMinuteDurMs mp).map (fun v => v / 1000)) 50).map
          (fun v => pyRound v 3)
        p95_resp_s := (percentile ((perMinuteDurMs mp).map (fun v => v / 1000)) 95).map
          (fun v => pyRound v 3)
        p99_resp_s := (percentile ((perMinuteDurMs mp).map (fun v => v / 1000)) 99).map
          (fun v => pyRound v 3)
        daily := ((dictKeys (perDayTotal mp)).insertionSort (· ≤ ·)).map (fun d =>
          (d, pyRound (100 * (1
            - ((lookupD (detectIncidents FS (mp.map (fun pt => pt.minute))
                (minuteFailures mp)).perDayDown d 0 : ℕ) : ℚ)
              / ((max (lookupD (perDayTotal mp) d 0) 1 : ℕ) : ℚ))) 3,
            lookupD (perDayTotal mp) d 0,
            lookupD (detectIncidents FS (mp.map (fun pt => pt.minute))
              (minuteFailures mp)).perDayDown d 0))
        chart_rows := downsample_series (mp.map (fun pt => pt.minute)) (perMinuteSucc mp)
          ((perMinuteDurMs mp).map (fun v => v / 1000)) DS
        mttr_min := if (detectIncidents FS (mp.map (fun pt => pt.minute))
            (minuteFailures mp)).incidents = [] then none
          else some (pyRound ((((detectIncidents FS (mp.map (fun pt => pt.minute))
              (minuteFailures mp)).incidents.map (fun x => (x.2.2 : ℚ))).sum)
            / ((detectIncidents FS (mp.map (fun pt => pt.minute))
              (minuteFailures mp)).incidents.length : ℚ)) 2)
        mtbf_min := if (detectIncidents FS (mp.map (fun pt => pt.minute))
            (minuteFailures mp)).incidents = [] then none
          else some (pyRound ((((minuteFailures mp).length : ℚ)
              - ((detectIncidents FS (mp.map (fun pt => pt.minute))
                (minuteFailures mp)).down : ℚ))
            / ((detectIncidents FS (mp.map (fun pt => pt.minute))
              (minuteFailures mp)).incidents.length : ℚ)) 2) } := by
  unfold computeSummary
  rw [sortByMinute_eq hsort, if_neg hne]

/-! ### Characterizations of the classification loop -/

theorem allOk_iff (s : List ℚ) : allOk s = true ↔ ∀ v ∈ s, (100 : ℚ) ≤ v := by
  simp [allOk]

/-- The `failures` list is the verdict map over exactly the minutes having
at least one success sample. -/
theorem minuteFailures_eq (pts : List MinutePoint) :
    minuteFailures pts = (pts.filter (fun pt => pt.succ ≠ [])).map
      (fun pt => if ∀ v ∈ pt.succ, (100 : ℚ) ≤ v then 0 else 1) := by
  induction pts with
  | nil => rfl
  | cons pt rest ih =>
    by_cases hs : pt.succ = []
    · simp [minuteFailures, hs, ih]
    · have hcond : (if allOk pt.succ then (0 : ℕ) else 1)
          = (if ∀ v ∈ pt.succ, (100 : ℚ) ≤ v then 0 else 1) := by
        by_cases hall : ∀ v ∈ pt.succ, (100 : ℚ) ≤ v
        · rw [if_pos ((allOk_iff pt.succ).mpr hall), if_pos hall]
        · rw [if_neg (fun hb => hall ((allOk_iff pt.succ).mp hb)), if_neg hall]
      simp [minuteFailures, hs, ih, hcond]

theorem minuteFailures_length (pts : List MinutePoint) :
    (minuteFailures pts).length = (pts.filter (fun pt => pt.succ ≠ [])).length := by
  rw [minuteFailures_eq, List.length_map]

/-- When no minute is classified, no duration average is collected either
(the `continue` skips the whole loop body). -/
theorem perMinuteDurMs_nil (pts : List MinutePoint) (h : minuteFailures pts = []) :
    perMinuteDurMs pts = [] := by
  induction pts with
  | nil => rfl
  | cons pt rest ih =>
    by_cases hs : pt.succ = []
    · simp only [minuteFailures, if_pos hs] at h
      simp only [perMinuteDurMs, if_pos hs]
      exact ih h
    · simp only [minuteFailures, if_neg hs] at h
      exact absurd h (List.cons_ne_nil _ _)

/-! ### Counter-dict lemmas (for the daily rollup) -/

theorem lookupD_nil (d dflt : ℕ) : lookupD [] d dflt = dflt := rfl

theorem lookupD_cons (x : ℕ × ℕ) (rest : List (ℕ × ℕ)) (d dflt : ℕ) :
    lookupD (x :: rest) d dflt = if x.1 = d then x.2 else lookupD rest d dflt := by
  by_cases h : x.1 = d
  · simp [lookupD, List.find?_cons_of_pos, h]
  · simp [lookupD, List.find?_cons_of_neg, h]

theorem dictKeys_cons (x : ℕ × ℕ) (rest : List (ℕ × ℕ)) :
    dictKeys (x :: rest) = x.1 :: dictKeys rest := rfl

theorem lookupD_dictIncr (a : List (ℕ × ℕ)) (e d : ℕ) :
    lookupD (dictIncr e a) d 0 = lookupD a d 0 + (if d = e then 1 else 0) := by
  induction a with
  | nil =>
    show lookupD [(e, 1)] d 0 = lookupD [] d 0 + (if d = e then 1 else 0)
    rw [lookupD_cons, lookupD_nil]
    by_cases hd : d = e
    · rw [if_pos hd.symm, if_pos hd]
    · rw [if_neg (fun h => hd h.symm), if_neg hd]
  | cons x rest ih =>
    simp only [dictIncr]
    by_cases hx : x.1 = e
    · rw [if_pos hx, lookupD_cons, lookupD_cons]
      by_cases hd : x.1 = d
      · have hde : d = e := by omega
        rw [if_pos hd, if_pos hd, if_pos hde]
      · have hde : ¬ d = e := by omega
        rw [if_neg hd, if_neg hd, if_neg hde, Nat.add_zero]
    · rw [if_neg hx, lookupD_cons, lookupD_cons]
      by_cases hd : x.1 = d
      · have hde : ¬ d = e := by omega
        rw [if_pos hd, if_pos hd, if_neg hde, Nat.add_zero]
      · rw [if_neg hd, if_neg hd, ih]

theorem dictKeys_dictIncr (a : List (ℕ × ℕ)) (e : ℕ) :
    dictKeys (dictIncr e a)
      = if e ∈ dictKeys a then dictKeys a else dictKeys a ++ [e] := by
  induction a with
  | nil => simp [dictIncr, dictKeys]
  | cons x rest ih =>
    simp only [dictIncr]
    by_cases hx : x.1 = e
    · rw [if_pos hx]
      have hmem : e ∈ dictKeys (x :: rest) := by
        rw [dictKeys_cons, hx]
        exact List.mem_cons_self e (dictKeys rest)
      rw [if_pos hmem]
      rfl
    · rw [if_neg hx]
      rw [show dictKeys (x :: dictIncr e rest) = x.1 :: dictKeys (dictIncr e rest) from rfl]
      rw [ih, dictKeys_cons]
      by_cases hmem : e ∈ dictKeys rest
      · rw [if_pos hmem, if_pos (List.mem_cons_of_mem x.1 hmem)]
      · have hnot : e ∉ x.1 :: dictKeys rest := by
          intro hc
          rcases List.mem_cons.mp hc with hc | hc
          · exact hx hc.symm
          · exact hmem hc
        rw [if_neg hmem, if_neg hnot, List.cons_append]

theorem mem_dictKeys_dictIncr (a : List (ℕ × ℕ)) (e d : ℕ) :
    d ∈ dictKeys (dictIncr e a) ↔ d ∈ dictKeys a ∨ d = e := by
  rw [dictKeys_dictIncr]
  by_cases hmem : e ∈ dictKeys a
  · rw [if_pos hmem]
    constructor
    · exact fun h => Or.inl h
    · rintro (h | h)
      · exact h
      · exact h ▸ hmem
  · rw [if_neg hmem]
    simp

theorem lookupD_counterFold (l : List ℕ) :
    ∀ (acc : List (ℕ × ℕ)) (d : ℕ),
      lookupD (l.foldl (fun a e => dictIncr e a) acc) d 0
        = lookupD acc d 0 + l.count d := by
  induction l with
  | nil => intro acc d; simp
  | cons e rest ih =>
    intro acc d
    simp only [List.foldl_cons]
    rw [ih (dictIncr e acc) d, lookupD_dictIncr]
    have hcount : (e :: rest).count d = rest.count d + (if d = e then 1 else 0) := by
      by_cases hd : d = e
      · subst hd
        simp [List.count_cons]
      · simp [List.count_cons, hd, fun h => hd (Eq.symm h)]
    omega

theorem mem_counterFold (l : List ℕ) :
    ∀ (acc : List (ℕ × ℕ)) (d : ℕ),
      d ∈ dictKeys (l.foldl (fun a e => dictIncr e a) acc)
        ↔ d ∈ dictKeys acc ∨ d ∈ l := by
  induction l with
  | nil => intro acc d; simp
  | cons e rest ih =>
    intro acc d
    simp only [List.foldl_cons]
    rw [ih (dictIncr e acc) d, mem_dictKeys_dictIncr]
    constructor
    · rintro (⟨h | h⟩ | h)
      · exact Or.inl h
      · exact Or.inr (h ▸ List.mem_cons_self e rest)
      · exact Or.inr (List.mem_cons_of_mem e h)
    · rintro (h | h)
      · exact Or.inl (Or.inl h)
      · rcases List.mem_cons.mp h with h | h
        · exact Or.inl (Or.inr h)
        · exact Or.inr h

theorem sorted_counterFold (l : List ℕ) :
    ∀ (acc : List (ℕ × ℕ)),
      List.Pairwise (· ≤ ·) l →
      List.Pairwise (· < ·) (dictKeys acc) →
      (∀ k ∈ dictKeys acc, ∀ x ∈ l, k ≤ x) →
      List.Pairwise (· < ·) (dictKeys (l.foldl (fun a e => dictIncr e a) acc)) := by
  induction l with
  | nil => intro acc _ hacc _; simpa using hacc
  | cons e rest ih =>
    intro acc hl hacc hbound
    simp only [List.foldl_cons]
    have hl2 : List.Pairwise (· ≤ ·) rest := hl.sublist (List.sublist_cons_self e rest)
    have he_rest : ∀ x ∈ rest, e ≤ x := fun x hx => (List.pairwise_cons.mp hl).1 x hx
    refine ih (dictIncr e acc) hl2 ?_ ?_
    · rw [dictKeys_dictIncr]
      by_cases hmem : e ∈ dictKeys acc
      · rw [if_pos hmem]; exact hacc
      · rw [if_neg hmem]
        rw [List.pairwise_append]
        refine ⟨hacc, List.pairwise_singleton _ _, ?_⟩
        intro k hk b hb
        rw [List.mem_singleton] at hb
        have hle : k ≤ e := hbound k hk e (List.mem_cons_self e rest)
        have hne : k ≠ e := fun h => hmem (h ▸ hk)
        rw [hb]
        omega
    · intro k hk x hx
      rw [mem_dictKeys_dictIncr] at hk
      rcases hk with hk | hk
      · exact hbound k hk x (List.mem_cons_of_mem e hx)
      · exact hk ▸ he_rest x hx

/-- The minutes that receive a verdict are the minute keys of the points
having at least one success sample. -/
theorem classifiedMinutes_eq (pts : List MinutePoint) :
    classifiedMinutes pts
      = (pts.filter (fun pt => pt.succ ≠ [])).map (fun pt => pt.minute) := by
  induction pts with
  | nil => rfl
  | cons pt rest ih =>
    by_cases hs : pt.succ = []
    · simp [classifiedMinutes, hs, ih]
    · simp [classifiedMinutes, hs, ih]

/-! ### Availability bound -/

theorem availability_bounds {d t : ℕ} (h : d ≤ t) :
    0 ≤ (1 - (d : ℚ) / ((max t 1 : ℕ) : ℚ)) * 100 ∧
      (1 - (d : ℚ) / ((max t 1 : ℕ) : ℚ)) * 100 ≤ 100 := by
  have hM1 : 1 ≤ (max t 1 : ℕ) := le_max_right t 1
  have hMq : (1 : ℚ) ≤ ((max t 1 : ℕ) : ℚ) := by exact_mod_cast hM1
  have hMpos : (0 : ℚ) < ((max t 1 : ℕ) : ℚ) := by linarith
  have hdM : (d : ℚ) ≤ ((max t 1 : ℕ) : ℚ) := by
    have : d ≤ max t 1 := le_trans h (le_max_left t 1)
    exact_mod_cast this
  have hd0 : (0 : ℚ) ≤ (d : ℚ) := by positivity
  have hfrac0 : (0 : ℚ) ≤ (d : ℚ) / ((max t 1 : ℕ) : ℚ) := by positivity
  have hfrac1 : (d : ℚ) / ((max t 1 : ℕ) : ℚ) ≤ 1 := by
    rw [div_le_one hMpos]
    exact hdM
  constructor <;> nlinarith

theorem pyRound_hundred : pyRound 100 3 = 100 := by with_unfolding_all decide

/-! ### Claim theorems -/

/-- C2: for every merged minute-point input, `availability_pct` equals
`(1 - down_minutes / max(total_minutes, 1)) * 100` rounded to 3 decimal
places, and when `total_minutes = 0` (including a completely empty input
map) the summary reports availability 100.0 with zero total and down
minutes, an empty incident list, and null latency statistics. -/
theorem C2_availability_formula (FS DS : ℕ) (mp : List MinutePoint) (hFS : 0 < FS)
    (hsort : List.Pairwise (fun a b => a.minute < b.minute) mp) :
    (computeSummary FS DS mp).availability_pct
      = pyRound ((1 - ((computeSummary FS DS mp).down_minutes : ℚ)
          / ((max (computeSummary FS DS mp).total_minutes 1 : ℕ) : ℚ)) * 100) 3
    ∧ ((computeSummary FS DS mp).total_minutes = 0 →
        (computeSummary FS DS mp).availability_pct = 100
        ∧ (computeSummary FS DS mp).down_minutes = 0
        ∧ (computeSummary FS DS mp).incidents = []
        ∧ (computeSummary FS DS mp).avg_resp_s = none
        ∧ (computeSummary FS DS mp).p50_resp_s = none
        ∧ (computeSummary FS DS mp).p95_resp_s = none
        ∧ (computeSummary FS DS mp).p99_resp_s = none) := by
  have h100 : pyRound ((1 - ((0 : ℕ) : ℚ) / ((max 0 1 : ℕ) : ℚ)) * 100) 3 = 100 := by
    norm_num
    exact pyRound_hundred
  by_cases hne : mp = []
  · subst hne
    rw [computeSummary_nil]
    exact ⟨h100.symm, fun _ => ⟨rfl, rfl, rfl, rfl, rfl, rfl, rfl⟩⟩
  · rw [computeSummary_eq FS DS mp hsort hne]
    dsimp only
    constructor
    · rfl
    · intro h0
      have hfail : minuteFailures mp = [] := List.length_eq_zero.mp h0
      have hdur : perMinuteDurMs mp = [] := perMinuteDurMs_nil mp hfail
      rw [hfail, hdur, detectIncidents_nil FS hFS]
      dsimp only
      refine ⟨h100, rfl, rfl, rfl, rfl, rfl, rfl⟩

/-- Witness for C2 at a concrete one-minute input. -/
theorem C2_witness :
    (computeSummary 3 5 [⟨0, [100], []⟩]).availability_pct
      = pyRound ((1 - ((computeSummary 3 5 [⟨0, [100], []⟩]).down_minutes : ℚ)
          / ((max (computeSummary 3 5 [⟨0, [100], []⟩]).total_minutes 1 : ℕ) : ℚ)) * 100) 3 :=
  (C2_availability_formula 3 5 [⟨0, [100], []⟩] (by decide) (by decide)).1

/-- C3: `down_minutes` equals the sum of the emitted incidents'
`duration_minutes`, `down_minutes ≤ total_minutes`, and the availability
percentage lies in `[0, 100]`. -/
theorem C3_invariants (FS DS : ℕ) (mp : List MinutePoint) (hFS : 0 < FS)
    (hsort : List.Pairwise (fun a b => a.minute < b.minute) mp) :
    (computeSummary FS DS mp).down_minutes = durSum (computeSummary FS DS mp).incidents
    ∧ (computeSummary FS DS mp).down_minutes ≤ (computeSummary FS DS mp).total_minutes
    ∧ 0 ≤ (computeSummary FS DS mp).availability_pct
    ∧ (computeSummary FS DS mp).availability_pct ≤ 100 := by
  by_cases hne : mp = []
  · subst hne
    rw [computeSummary_nil]
    refine ⟨rfl, le_refl 0, by norm_num, by norm_num⟩
  · rw [computeSummary_eq FS DS mp hsort hne]
    dsimp only
    have hdt : (detectIncidents FS (mp.map (fun pt => pt.minute)) (minuteFailures mp)).down
        ≤ (minuteFailures mp).length := by
      rw [detectIncidents_down FS hFS]
      simpa using streakDown_le FS hFS (minuteFailures mp) 0
    have hb := availability_bounds hdt
    exact ⟨detectIncidents_durSum FS hFS _ _, hdt,
      pyRound_nonneg 3 hb.1, pyRound_le_hundred 3 hb.2⟩

/-- C1 (code bug evaluation): with `FAIL_STREAK = 3`, on the input whose
minute 0 carries only a duration sample (so it is skipped by the
classifier) and whose minutes 1, 2, 3 fail, the classified down run is
minutes 1..3; the claim requires the single incident to start and end at
minute 3 (the `fail_streak`-th minute of the run and its last minute) with
duration 1.  The code instead emits `(2, 2, 1)`: it indexes the unfiltered
key list `[0, 1, 2, 3]` with an index into the filtered failures list. -/
theorem C1_incident_start_misaligned :
    (computeSummary 3 5 [⟨0, [], [5]⟩, ⟨1, [0], []⟩, ⟨2, [0], []⟩, ⟨3, [0], []⟩]).incidents
      = [(2, 2, 1)]
    ∧ minuteFailures [⟨0, [], [5]⟩, ⟨1, [0], []⟩, ⟨2, [0], []⟩, ⟨3, [0], []⟩] = [1, 1, 1]
    ∧ classifiedMinutes [⟨0, [], [5]⟩, ⟨1, [0], []⟩, ⟨2, [0], []⟩, ⟨3, [0], []⟩]
      = [1, 2, 3] := by
  with_unfolding_all decide

/-- C10 (code bug evaluation): a minute with duration samples but no
success samples is excluded from `total_minutes` and its latency samples
from the latency statistics, but it is not inert: its key still enters the
sorted key list, so its presence shifts the downsampled chart (bucket
aligned at minute 0 instead of minute 5 for the same single classified
minute). -/
theorem C10_duration_only_minute_not_inert :
    (computeSummary 3 5 [⟨0, [], [7]⟩, ⟨5, [100], []⟩]).total_minutes = 1
    ∧ (computeSummary 3 5 [⟨0, [], [7]⟩, ⟨5, [100], []⟩]).avg_resp_s = none
    ∧ (computeSummary 3 5 [⟨0, [], [7]⟩, ⟨5, [100], []⟩]).p50_resp_s = none
    ∧ (computeSummary 3 5 [⟨0, [], [7]⟩, ⟨5, [100], []⟩]).chart_rows = [(0, 100, 0)]
    ∧ (computeSummary 3 5 [⟨5, [100], []⟩]).chart_rows = [(5, 100, 0)] := by
  with_unfolding_all decide

/-- Witness for C3 at a concrete input containing one incident. -/
theorem C3_witness :
    (computeSummary 3 5 [⟨0, [0], []⟩, ⟨1, [0], []⟩, ⟨2, [0], []⟩, ⟨3, [100], []⟩]).down_minutes
      = durSum (computeSummary 3 5
          [⟨0, [0], []⟩, ⟨1, [0], []⟩, ⟨2, [0], []⟩, ⟨3, [100], []⟩]).incidents
    ∧ (computeSummary 3 5
        [⟨0, [0], []⟩, ⟨1, [0], []⟩, ⟨2, [0], []⟩, ⟨3, [100], []⟩]).down_minutes
      ≤ (computeSummary 3 5
        [⟨0, [0], []⟩, ⟨1, [0], []⟩, ⟨2, [0], []⟩, ⟨3, [100], []⟩]).total_minutes
    ∧ 0 ≤ (computeSummary 3 5
        [⟨0, [0], []⟩, ⟨1, [0], []⟩, ⟨2, [0], []⟩, ⟨3, [100], []⟩]).availability_pct
    ∧ (computeSummary 3 5
        [⟨0, [0], []⟩, ⟨1, [0], []⟩, ⟨2, [0], []⟩, ⟨3, [100], []⟩]).availability_pct ≤ 100 :=
  C3_invariants 3 5 [⟨0, [0], []⟩, ⟨1, [0], []⟩, ⟨2, [0], []⟩, ⟨3, [100], []⟩]
    (by decide) (by decide)

/-- C8 (counterexample): on three runs of 3, 3 and 4 down minutes
(incident durations 1, 1, 2), the reported `mttr_min` is `round(4/3, 2) =
1.33 ≠ 4/3` and the reported `mtbf_min` is `round(8/3, 2) = 2.67 ≠ 8/3`,
so the claim's unrounded equalities fail. -/
theorem C8_counterexample :
    (computeSummary 3 5 [⟨0, [0], []⟩, ⟨1, [0], []⟩, ⟨2, [0], []⟩, ⟨3, [100], []⟩,
      ⟨4, [0], []⟩, ⟨5, [0], []⟩, ⟨6, [0], []⟩, ⟨7, [100], []⟩,
      ⟨8, [0], []⟩, ⟨9, [0], []⟩, ⟨10, [0], []⟩, ⟨11, [0], []⟩]).mttr_min
        = some (133/100)
    ∧ durSum (computeSummary 3 5 [⟨0, [0], []⟩, ⟨1, [0], []⟩, ⟨2, [0], []⟩, ⟨3, [100], []⟩,
      ⟨4, [0], []⟩, ⟨5, [0], []⟩, ⟨6, [0], []⟩, ⟨7, [100], []⟩,
      ⟨8, [0], []⟩, ⟨9, [0], []⟩, ⟨10, [0], []⟩, ⟨11, [0], []⟩]).incidents = 4
    ∧ (computeSummary 3 5 [⟨0, [0], []⟩, ⟨1, [0], []⟩, ⟨2, [0], []⟩, ⟨3, [100], []⟩,
      ⟨4, [0], []⟩, ⟨5, [0], []⟩, ⟨6, [0], []⟩, ⟨7, [100], []⟩,
      ⟨8, [0], []⟩, ⟨9, [0], []⟩, ⟨10, [0], []⟩, ⟨11, [0], []⟩]).incidents.length = 3
    ∧ ((133 : ℚ)/100 ≠ (4 : ℚ)/3)
    ∧ (computeSummary 3 5 [⟨0, [0], []⟩, ⟨1, [0], []⟩, ⟨2, [0], []⟩, ⟨3, [100], []⟩,
      ⟨4, [0], []⟩, ⟨5, [0], []⟩, ⟨6, [0], []⟩, ⟨7, [100], []⟩,
      ⟨8, [0], []⟩, ⟨9, [0], []⟩, ⟨10, [0], []⟩, ⟨11, [0], []⟩]).mtbf_min
        = some (267/100)
    ∧ (computeSummary 3 5 [⟨0, [0], []⟩, ⟨1, [0], []⟩, ⟨2, [0], []⟩, ⟨3, [100], []⟩,
      ⟨4, [0], []⟩, ⟨5, [0], []⟩, ⟨6, [0], []⟩, ⟨7, [100], []⟩,
      ⟨8, [0], []⟩, ⟨9, [0], []⟩, ⟨10, [0], []⟩, ⟨11, [0], []⟩]).total_minutes = 12
    ∧ (computeSummary 3 5 [⟨0, [0], []⟩, ⟨1, [0], []⟩, ⟨2, [0], []⟩, ⟨3, [100], []⟩,
      ⟨4, [0], []⟩, ⟨5, [0], []⟩, ⟨6, [0], []⟩, ⟨7, [100], []⟩,
      ⟨8, [0], []⟩, ⟨9, [0], []⟩, ⟨10, [0], []⟩, ⟨11, [0], []⟩]).down_minutes = 4
    ∧ ((267 : ℚ)/100 ≠ ((12 : ℚ) - 4)/3) := by
  with_unfolding_all decide

/-- C8 (amended): `mttr_min` is the mean incident duration rounded to 2
decimal places and `mtbf_min` is `(total_minutes - down_minutes) /
incident_count` rounded to 2 decimal places; both are null exactly when
the incident list is empty. -/
theorem C8_mttr_mtbf_rounded (FS DS : ℕ) (mp : List MinutePoint) :
    (computeSummary FS DS mp).mttr_min
      = (if (computeSummary FS DS mp).incidents = [] then none
        else some (pyRound ((((computeSummary FS DS mp).incidents.map
            (fun x => (x.2.2 : ℚ))).sum)
          / ((computeSummary FS DS mp).incidents.length : ℚ)) 2))
    ∧ (computeSummary FS DS mp).mtbf_min
      = (if (computeSummary FS DS mp).incidents = [] then none
        else some (pyRound ((((computeSummary FS DS mp).total_minutes : ℚ)
            - ((computeSummary FS DS mp).down_minutes : ℚ))
          / ((computeSummary FS DS mp).incidents.length : ℚ)) 2)) := by
  unfold computeSummary
  by_cases hne : mp.insertionSort byMinute = []
  · rw [if_pos hne]
    constructor <;> simp
  · rw [if_neg hne]
    dsimp only
    exact ⟨rfl, rfl⟩

/-- C6: a classified minute is up exactly when every success sample of
that minute reports at least 100 percent (one failing probe fails the
minute), and minutes with no success samples are absent from the
classified series: `total_minutes` counts exactly the minutes that have at
least one success sample. -/
theorem C6_minute_classification (FS DS : ℕ) (mp : List MinutePoint)
    (hsort : List.Pairwise (fun a b => a.minute < b.minute) mp) :
    (computeSummary FS DS mp).total_minutes
      = (mp.filter (fun pt => pt.succ ≠ [])).length
    ∧ minuteFailures mp = (mp.filter (fun pt => pt.succ ≠ [])).map
        (fun pt => if ∀ v ∈ pt.succ, (100 : ℚ) ≤ v then 0 else 1) := by
  refine ⟨?_, minuteFailures_eq mp⟩
  by_cases hne : mp = []
  · subst hne
    rw [computeSummary_nil]
    rfl
  · rw [computeSummary_eq FS DS mp hsort hne]
    exact minuteFailures_length mp

/-- Witness for C6: a minute with samples 100 and 50 is down (one failing
probe fails the minute) and a minute with no success samples is absent
from the total. -/
theorem C6_witness :
    (computeSummary 3 5 [⟨0, [100, 50], []⟩, ⟨1, [], [3]⟩]).total_minutes
      = ([(⟨0, [100, 50], []⟩ : MinutePoint), ⟨1, [], [3]⟩].filter
          (fun pt => pt.succ ≠ [])).length
    ∧ minuteFailures [⟨0, [100, 50], []⟩, ⟨1, [], [3]⟩]
      = ([(⟨0, [100, 50], []⟩ : MinutePoint), ⟨1, [], [3]⟩].filter
          (fun pt => pt.succ ≠ [])).map
        (fun pt => if ∀ v ∈ pt.succ, (100 : ℚ) ≤ v then 0 else 1) :=
  C6_minute_classification 3 5 [⟨0, [100, 50], []⟩, ⟨1, [], [3]⟩] (by decide)

/-- C4 (counterexample): observed minutes on day 0 and day 2 only, both
up.  The daily rollup has exactly the two observed days, so there is no
row for day 1 (the claim requires a padded row for every calendar day
through the window end with no gaps), and the day-2 row shows only that
day's single minute (a month-to-date cumulative series would show a
running total of 2). -/
theorem C4_counterexample :
    (computeSummary 3 5 [⟨0, [100], []⟩, ⟨2880, [100], []⟩]).daily
      = [(0, 100, 1, 0), (2, 100, 1, 0)] := by
  with_unfolding_all decide

theorem map_fst_of_map_pair (g : ℕ → ℚ × ℕ × ℕ) (keys : List ℕ) :
    (keys.map (fun d => ((d, g d) : ℕ × ℚ × ℕ × ℕ))).map (fun r => r.1) = keys := by
  induction keys with
  | nil => rfl
  | cons d rest ih => simp only [List.map_cons, ih]

/-- C4 (amended): the daily rollup has exactly one row per calendar day
having at least one classified minute, in strictly ascending day order;
days without observed minutes are omitted (no padding), and each row is
per-day isolated: its minutes-total field counts that day's classified
minutes and its availability field is computed from that row's own
down/total fields, with no cumulative carry. -/
theorem C4_daily_per_observed_day (FS DS : ℕ) (mp : List MinutePoint)
    (hsort : List.Pairwise (fun a b => a.minute < b.minute) mp) :
    List.Pairwise (· < ·) ((computeSummary FS DS mp).daily.map (fun r => r.1))
    ∧ (∀ d, d ∈ (computeSummary FS DS mp).daily.map (fun r => r.1)
        ↔ d ∈ (classifiedMinutes mp).map dayOf)
    ∧ ∀ r ∈ (computeSummary FS DS mp).daily,
        r.2.2.1 = ((classifiedMinutes mp).map dayOf).count r.1
        ∧ r.2.1 = pyRound (100 * (1 - (r.2.2.2 : ℚ)
            / ((max r.2.2.1 1 : ℕ) : ℚ))) 3 := by
  by_cases hne : mp = []
  · subst hne
    rw [computeSummary_nil]
    refine ⟨by simp, by simp [classifiedMinutes], by simp⟩
  · rw [computeSummary_eq FS DS mp hsort hne]
    dsimp only
    have hfold : perDayTotal mp
        = ((classifiedMinutes mp).map dayOf).foldl (fun a e => dictIncr e a) [] := by
      rw [perDayTotal, List.foldl_map]
    have hdaysle : List.Pairwise (· ≤ ·) ((classifiedMinutes mp).map dayOf) := by
      have h1 : List.Pairwise (fun a b : MinutePoint => a.minute < b.minute)
          (mp.filter (fun pt => pt.succ ≠ [])) := hsort.sublist (List.filter_sublist mp)
      rw [classifiedMinutes_eq, List.map_map, List.pairwise_map]
      exact h1.imp (fun hab => Nat.div_le_div_right (le_of_lt hab))
    have hkeysLt : List.Pairwise (· < ·) (dictKeys (perDayTotal mp)) := by
      rw [hfold]
      exact sorted_counterFold _ [] hdaysle (by simp [dictKeys]) (by simp [dictKeys])
    have hsorteq : (dictKeys (perDayTotal mp)).insertionSort (· ≤ ·)
        = dictKeys (perDayTotal mp) :=
      List.Sorted.insertionSort_eq (hkeysLt.imp le_of_lt)
    rw [hsorteq]
    rw [map_fst_of_map_pair (fun d => (pyRound (100 * (1
      - ((lookupD (detectIncidents FS (mp.map (fun pt => pt.minute))
          (minuteFailures mp)).perDayDown d 0 : ℕ) : ℚ)
        / ((max (lookupD (perDayTotal mp) d 0) 1 : ℕ) : ℚ))) 3,
      lookupD (perDayTotal mp) d 0,
      lookupD (detectIncidents FS (mp.map (fun pt => pt.minute))
        (minuteFailures mp)).perDayDown d 0))]
    refine ⟨hkeysLt, ?_, ?_⟩
    · intro d
      rw [hfold, mem_counterFold]
      simp [dictKeys]
    · intro r hr
      rcases List.mem_map.mp hr with ⟨d, hd, heq⟩
      rw [← heq]
      dsimp only
      refine ⟨?_, rfl⟩
      rw [hfold, lookupD_counterFold]
      rw [lookupD_nil]
      omega

/-- C5: `percentile` computes the linear-interpolation percentile over
the sorted values (rank `(n - 1) * p / 100`, interpolating between the
values at the floor and ceiling of the rank), returns null on an empty
value set, and on `[100, 200, 300, 400]` gives p50 = 250, p100 = 400,
p0 = 100. -/
theorem C5_percentile_interpolation :
    (∀ p : ℚ, percentile [] p = none)
    ∧ (∀ (v : List ℚ) (p : ℚ), v ≠ [] → 0 ≤ p → p ≤ 100 →
        percentile v p = some (interpAtRank (v.insertionSort (· ≤ ·))
          (((v.insertionSort (· ≤ ·)).length - 1 : ℕ) * (p / 100))))
    ∧ percentile [100, 200, 300, 400] 50 = some 250
    ∧ percentile [100, 200, 300, 400] 100 = some 400
    ∧ percentile [100, 200, 300, 400] 0 = some 100 := by
  refine ⟨fun p => rfl, percentile_interp, ?_, ?_, ?_⟩
  · with_unfolding_all decide
  · with_unfolding_all decide
  · with_unfolding_all decide

/-- Witness for C5 at the spec's concrete latency set and p50. -/
theorem C5_witness :
    percentile [] 50 = none
    ∧ percentile [100, 200, 300, 400] 50
      = some (interpAtRank ([100, 200, 300, 400].insertionSort (· ≤ ·))
          ((([(100 : ℚ), 200, 300, 400].insertionSort (· ≤ ·)).length - 1 : ℕ)
            * (50 / 100))) :=
  ⟨C5_percentile_interpolation.1 50,
    C5_percentile_interpolation.2.1 [100, 200, 300, 400] 50 (by decide)
      (by norm_num) (by norm_num)⟩

/-- C7: downsampling emits buckets that are fixed-width windows aligned
to the first observed minute; the number of emitted rows never exceeds
`ceil(span / width)` where `span = last - first + 1` is the inclusive
minute span (`(span + w - 1) / w` in natural division); assuming every
per-minute success value lies in [0, 100], every emitted bucket average
lies in [0, 100]; and an empty input yields an empty output. -/
theorem C7_downsample_bounds (keys : List ℕ) (succ resp : List ℚ) (w : ℕ)
    (hw : 0 < w) (hsorted : List.Pairwise (· ≤ ·) keys)
    (hsucc : ∀ x ∈ succ, 0 ≤ x ∧ x ≤ 100) :
    downsample_series [] succ resp w = []
    ∧ ∀ first last1, keys.head? = some first → keys.getLast? = some last1 →
        (downsample_series keys succ resp w).length ≤ ((last1 + 1 - first) + w - 1) / w
        ∧ ∀ r ∈ downsample_series keys succ resp w,
            (∃ j, r.1 = first + j * w) ∧ 0 ≤ r.2.1 ∧ r.2.1 ≤ 100 := by
  refine ⟨rfl, ?_⟩
  intro first last1 hhead hlast
  cases keys with
  | nil => simp at hhead
  | cons k0 krest =>
    have hfirst : k0 = first := by simpa using hhead
    subst hfirst
    have hmemle : ∀ x ∈ k0 :: krest, x ≤ last1 :=
      pairwise_le_getLastQ _ hsorted last1 hlast
    have hk0 : k0 ≤ last1 := hmemle k0 (List.mem_cons_self k0 krest)
    have hiks : ∀ ik ∈ (k0 :: krest).enum, ik.2 ≤ last1 := by
      intro ik hik
      apply hmemle
      have hsnd := List.enum_map_snd (k0 :: krest)
      rw [← hsnd]
      exact List.mem_map_of_mem Prod.snd hik
    obtain ⟨⟨j, hj, hlen⟩, hrows, hacc, hbK⟩ :=
      dsLoop_inv k0 w last1 hw succ resp hsucc (k0 :: krest).enum ⟨[], k0, [], []⟩
        ⟨0, by simp, by simp⟩ (by simp) (by simp) hk0 hiks
    have hds : downsample_series (k0 :: krest) succ resp w
        = dsFlush ((k0 :: krest).enum.foldl (downsampleStep w succ resp)
            ⟨[], k0, [], []⟩) := rfl
    rw [hds]
    obtain ⟨hflen, hfrows⟩ := dsFlush_spec k0 w j _ hj hlen hrows hacc
    refine ⟨le_trans hflen ?_, hfrows⟩
    rw [hj] at hbK
    have hj_le : j ≤ (last1 - k0) / w := (Nat.le_div_iff_mul_le hw).mpr (by omega)
    have heq : ((last1 + 1 - k0) + w - 1) / w = (last1 - k0) / w + 1 := by
      have h1 : (last1 + 1 - k0) + w - 1 = (last1 - k0) + w := by omega
      rw [h1, Nat.add_div_right _ hw]
    omega

/-- Witness for C7 at a two-minute series spanning two buckets. -/
theorem C7_witness :
    downsample_series [] [100] [] 5 = []
    ∧ ∀ first last1, [0, 5].head? = some first → [0, 5].getLast? = some last1 →
        (downsample_series [0, 5] [100] [] 5).length ≤ ((last1 + 1 - first) + 5 - 1) / 5
        ∧ ∀ r ∈ downsample_series [0, 5] [100] [] 5,
            (∃ j, r.1 = first + j * 5) ∧ 0 ≤ r.2.1 ∧ r.2.1 ≤ 100 :=
  C7_downsample_bounds [0, 5] [100] [] 5 (by decide) (by decide) (by decide)

theorem classifyPolicy_true_length (window : List ℕ) (mp : List MinutePoint) :
    (classifyPolicy true mp window).length = window.length := by
  induction window with
  | nil => rfl
  | cons m rest ih =>
    simp only [classifyPolicy]
    by_cases hs : succSamplesAt mp m ≠ []
    · rw [if_pos hs]
      simp only [List.length_cons, ih]
    · rw [if_neg hs, if_pos trivial]
      simp only [List.length_cons, ih]

theorem streakDown_policy_le (FS : ℕ) (mp : List MinutePoint) :
    ∀ (window : List ℕ) (r : ℕ),
      streakDown FS r (classifyPolicy false mp window)
        ≤ streakDown FS r (classifyPolicy true mp window) := by
  intro window
  induction window with
  | nil => intro r; exact le_refl _
  | cons m rest ih =>
    intro r
    simp only [classifyPolicy]
    by_cases hs : succSamplesAt mp m ≠ []
    · rw [if_pos hs, if_pos hs]
      by_cases hok : allOk (succSamplesAt mp m)
      · rw [if_pos hok]
        simp only [streakDown, if_neg (by omega : ¬ (0 : ℕ) = 1)]
        exact Nat.add_le_add_left (ih 0) _
      · rw [if_neg hok]
        simp only [streakDown, if_pos rfl]
        exact ih (r + 1)
    · rw [if_neg hs, if_neg hs, if_pos trivial, if_neg (by simp : ¬ false = true)]
      simp only [streakDown, if_pos rfl]
      exact le_trans (streakDown_mono FS _ (Nat.le_succ r)) (ih (r + 1))

/-- C9 (spec-modelled): with the `treat_missing_as_down` switch of the
spec enabled, every minute of the requested window is classified
(`total_minutes` covers the whole window, each absent minute synthesized
as down), and `down_minutes` is at least the default policy's
`down_minutes` for the same raw observations. -/
theorem C9_missing_policy (FS : ℕ) (window : List ℕ) (mp : List MinutePoint)
    (hFS : 0 < FS) :
    policyDownMinutes FS false window mp ≤ policyDownMinutes FS true window mp
    ∧ policyTotalMinutes true window mp = window.length := by
  constructor
  · unfold policyDownMinutes downMinutesOf
    rw [detectIncidents_down FS hFS, detectIncidents_down FS hFS]
    exact streakDown_policy_le FS mp window 0
  · exact classifyPolicy_true_length window mp

/-- Witness for C9: a three-minute window observing only one failing
minute. -/
theorem C9_witness :
    policyDownMinutes 3 false [0, 1, 2] [⟨1, [0], []⟩]
      ≤ policyDownMinutes 3 true [0, 1, 2] [⟨1, [0], []⟩]
    ∧ policyTotalMinutes true [0, 1, 2] [⟨1, [0], []⟩] = [0, 1, 2].length :=
  C9_missing_policy 3 [0, 1, 2] [⟨1, [0], []⟩] (by decide)

/-- Witness for C4 (amended) at the gap input of the counterexample. -/
theorem C4_witness :
    List.Pairwise (· < ·) ((computeSummary 3 5
        [⟨0, [100], []⟩, ⟨2880, [100], []⟩]).daily.map (fun r => r.1))
    ∧ (∀ d, d ∈ (computeSummary 3 5
          [⟨0, [100], []⟩, ⟨2880, [100], []⟩]).daily.map (fun r => r.1)
        ↔ d ∈ (classifiedMinutes [⟨0, [100], []⟩, ⟨2880, [100], []⟩]).map dayOf)
    ∧ ∀ r ∈ (computeSummary 3 5 [⟨0, [100], []⟩, ⟨2880, [100], []⟩]).daily,
        r.2.2.1 = ((classifiedMinutes [⟨0, [100], []⟩, ⟨2880, [100], []⟩]).map
          dayOf).count r.1
        ∧ r.2.1 = pyRound (100 * (1 - (r.2.2.2 : ℚ)
            / ((max r.2.2.1 1 : ℕ) : ℚ))) 3 :=
  C4_daily_per_observed_day 3 5 [⟨0, [100], []⟩, ⟨2880, [100], []⟩] (by decide)

end Uptime
